import Mathlib

/-!
Shallow embedding of `src/folder_scanner.py` and verification of the
specification's claims about it.

Conventions of the embedding:
* Python ints are `ℤ`/`ℕ`; Python floats are `ℚ`.  Every float operation the
  program performs on the values the claims range over (division by 1024,
  comparison with 1024, `%.2f` rendering) is exact in binary floating point
  for inputs below `2 ^ 53`, so the rational model agrees with the Python
  float semantics on all inputs the claims quantify over.
* Strings are Lean `String`s; the character-level work is done on `List Char`.
* `sys.exit` / an uncaught exception is modelled by `Option`/`Except.error`.
-/

/-! ### Character and digit utilities -/

/-- The ASCII digit character for `d` (meaningful for `d < 10`). -/
def digitChar (d : ℕ) : Char := Char.ofNat (48 + d)

/-- Big-endian decimal digits of `n`, fuelled structural recursion; the fuel is
an upper bound on `n`. -/
def natDigitsAux : ℕ → ℕ → List Char
  | 0, _ => []
  | fuel + 1, n => if n < 10 then [digitChar n] else natDigitsAux fuel (n / 10) ++ [digitChar (n % 10)]

/-- The decimal digit string of `n`, as rendered by Python's str/format of an int. -/
def natToStr (n : ℕ) : List Char := natDigitsAux (n + 1) n

/-- Numeric value of a digit string (meaningful when all characters are digits). -/
def digitsVal (l : List Char) : ℕ := l.foldl (fun a c => 10 * a + (c.toNat - 48)) 0

/-- All characters are ASCII digits. -/
def allDigits (l : List Char) : Bool := l.all Char.isDigit

/-- Split a character list at the first occurrence of `sep`: returns the part
before it and, when `sep` occurs, the part after it. -/
def breakAt (sep : Char) : List Char → List Char × Option (List Char)
  | [] => ([], none)
  | c :: rest =>
    if c = sep then ([], some rest)
    else
      let p := breakAt sep rest
      (c :: p.1, p.2)

/-- Whitespace stripped by Python `str.strip` (ASCII subset; the program's
inputs in the claims contain at most plain spaces). -/
def isPySpace (c : Char) : Bool :=
  c = ' ' || c = '\t' || c = '\n' || c = '\r' || c = Char.ofNat 11 || c = Char.ofNat 12

/-- Python `str.strip`. -/
def stripChars (l : List Char) : List Char :=
  ((l.dropWhile isPySpace).reverse.dropWhile isPySpace).reverse

/-- Python `str.upper` (ASCII subset, which covers every input in the claims). -/
def upperChars (l : List Char) : List Char := l.map Char.toUpper

/-- Does `l` end with `suf` (Python `str.endswith`)? -/
def endsWithL (l suf : List Char) : Bool := decide (l.reverse.take suf.length = suf.reverse)

/-- Drop the last `suf.length` characters (Python `size_str[:-len(suffix)]`
for a string that ends with `suffix`). -/
def dropSuffixL (l suf : List Char) : List Char := l.take (l.length - suf.length)

/-! ### The number parser: model of Python `float(...)` on decimal literals

`float` also accepts exponents, underscores between digits, and the strings
INF/NAN; none of those occur in any claim, and no claim of the spec depends
on them, so the model covers exactly the decimal-literal fragment:
an optional sign, then digits with at most one dot and at least one digit. -/

/-- Unsigned decimal literal: `123`, `123.45`, `123.`, `.45`. -/
def parseUnsigned (l : List Char) : Option ℚ :=
  match breakAt '.' l with
  | (ip, none) => if ip ≠ [] ∧ allDigits ip then some (digitsVal ip) else none
  | (ip, some fp) =>
    if (ip ≠ [] ∨ fp ≠ []) ∧ allDigits ip ∧ allDigits fp then
      some ((digitsVal ip : ℚ) + (digitsVal fp : ℚ) / (10 : ℚ) ^ fp.length)
    else none

/-- Optionally signed decimal literal. -/
def parseSigned : List Char → Option ℚ
  | [] => none
  | c :: rest =>
    if c = '+' then parseUnsigned rest
    else if c = '-' then (parseUnsigned rest).map (fun q => -q)
    else parseUnsigned (c :: rest)

/-! ### `parse_size` -/

/-- The unit table of `parse_size`, in the order Python iterates it:
`sorted(units.items(), key=lambda x: -len(x[0]))` is a stable sort of the
dict order `B, KB, MB, GB, TB` by descending suffix length, giving
`KB, MB, GB, TB, B`. -/
def sizeUnits : List (List Char × ℚ) :=
  [(['K', 'B'], 1024), (['M', 'B'], 1024 ^ 2), (['G', 'B'], 1024 ^ 3),
   (['T', 'B'], 1024 ^ 4), (['B'], 1)]

/-- The suffix loop of `parse_size`: on the first suffix match, a failed
numeric parse executes `break` and falls through to the bare parse of the
whole string; with no suffix match the bare parse is also reached. -/
def parseSizeAux (t : List Char) : List (List Char × ℚ) → Option ℚ
  | [] => parseSigned t
  | (suf, mult) :: rest =>
    if endsWithL t suf then
      match parseSigned (stripChars (dropSuffixL t suf)) with
      | some q => some (q * mult)
      | none => parseSigned t
    else parseSizeAux t rest

/-- Function `parse_size` (src/folder_scanner.py lines 11-26).  `none` models the
`sys.exit(1)` on the InvalidSizeFormat error path. -/
def parse_size (s : String) : Option ℚ :=
  parseSizeAux (upperChars (stripChars s.data)) sizeUnits

/-! ### `format_size` -/

/-- Round half to even, the rounding Python applies when formatting an exactly
representable value with `%.2f` (scaled by 100 before the call). -/
def rhe (q : ℚ) : ℤ :=
  if q - ⌊q⌋ < 1 / 2 then ⌊q⌋
  else if 1 / 2 < q - ⌊q⌋ then ⌊q⌋ + 1
  else if ⌊q⌋ % 2 = 0 then ⌊q⌋ else ⌊q⌋ + 1

/-- The characters of Python `f"{q:.2f}"`: sign, integer part, dot, exactly two
fractional digits. -/
def formatTwoDecL (q : ℚ) : List Char :=
  let m := (rhe (q * 100)).natAbs
  (if q < 0 then ['-'] else []) ++
    natToStr (m / 100) ++ '.' :: [digitChar (m % 100 / 10), digitChar (m % 100 % 10)]

/-- The unit tuple `("B", "KiB", "MiB", "GiB", "TiB")` iterated by `format_size`. -/
def formatUnits : List (List Char) :=
  [['B'], ['K', 'i', 'B'], ['M', 'i', 'B'], ['G', 'i', 'B'], ['T', 'i', 'B']]

/-- The loop of `format_size`: return at the first unit where the value is
below 1024, otherwise divide by 1024 and continue; after the loop the value is
rendered with the fallback unit `PiB`. -/
def formatSizeAux : ℚ → List (List Char) → List Char
  | x, [] => formatTwoDecL x ++ ' ' :: ['P', 'i', 'B']
  | x, u :: us => if x < 1024 then formatTwoDecL x ++ ' ' :: u else formatSizeAux (x / 1024) us

/-- Function `format_size` (src/folder_scanner.py lines 50-56). -/
def format_size (q : ℚ) : String := String.mk (formatSizeAux q formatUnits)

/-- The unit index `format_size` actually selects for a value `q`: the least
`k` with `q / 1024 ^ k < 1024`, capped at the fallback index 5 (`PiB`). -/
def chooseUnit (q : ℚ) : ℕ :=
  if q < 1024 then 0
  else if q < 1024 ^ 2 then 1
  else if q < 1024 ^ 3 then 2
  else if q < 1024 ^ 4 then 3
  else if q < 1024 ^ 5 then 4
  else 5

/-- Name of the unit with index `k` in `format_size`'s ladder (5 = fallback `PiB`). -/
def unitName (k : ℕ) : List Char := (formatUnits ++ [['P', 'i', 'B']]).getD k ['P', 'i', 'B']

/-! ### `scan_folder` -/

/-- Kind of a directory entry on disk; a symbolic link records the kind of its
target. -/
inductive FileKind where
  | regular : FileKind
  | directory : FileKind
  | symlinkTo : FileKind → FileKind
  | other : FileKind
deriving DecidableEq

/-- Model of `os.DirEntry.is_file(follow_symlinks=False)`: true exactly when the entry
itself is a regular file; in particular false for every symbolic link, whatever
it points to. -/
def isFileNoFollow : FileKind → Bool
  | .regular => true
  | _ => false

/-- A directory entry as `os.scandir` yields it.  `stSize = none` models
`entry.stat()` raising an `OSError` (e.g. the file was deleted mid-scan);
`stSize = some n` is a successful `entry.stat().st_size`. -/
structure DirEntry where
  name : String
  kind : FileKind
  stSize : Option ℤ

/-- Position of the last `'.'` in a character list, if any. -/
def lastDotIdx : List Char → Option ℕ
  | [] => none
  | c :: rest =>
    match lastDotIdx rest with
    | some i => some (i + 1)
    | none => if c = '.' then some 0 else none

/-- Model of `os.path.splitext(name)[1]` for a name without path separators (which is
what `os.scandir` entry names are): the part from the last dot on, unless every
character before the last dot is itself a dot (leading-dot names such as
`.gitignore` have no extension). -/
def splitextExt (l : List Char) : List Char :=
  match lastDotIdx l with
  | none => []
  | some i => if (l.take i).any (fun c => c ≠ '.') then l.drop i else []

/-- The normalized extension computed at src/folder_scanner.py line 36:
`os.path.splitext(entry.name)[1].lower() or "(no extension)"` (an empty
extension string is falsy, so it becomes the sentinel). -/
def ext_of (name : String) : String :=
  let e := (splitextExt name.data).map Char.toLower
  if e = [] then ("(no extension)") else String.mk e

/-- The skip condition `filter_exts and ext not in filter_exts` (line 37).
Python truthiness: `None` and the empty set are both falsy, so an empty
`filter_exts` set skips nothing. -/
def extSkip (filterExts : Option (List String)) (ext : String) : Bool :=
  match filterExts with
  | none => false
  | some l => !l.isEmpty && !(decide (ext ∈ l))

/-- The skip condition `min_size is not None and size < min_size` (line 40). -/
def belowMin (minSize : Option ℚ) (sz : ℤ) : Bool :=
  match minSize with
  | none => false
  | some m => decide ((sz : ℚ) < m)

/-- The skip condition `max_size is not None and size > max_size` (line 42). -/
def aboveMax (maxSize : Option ℚ) (sz : ℤ) : Bool :=
  match maxSize with
  | none => false
  | some m => decide (m < (sz : ℚ))

/-- One `Counter` increment `extensions[ext] += 1`: bump an existing key in
place, or append a new key with count 1 (Python dicts keep insertion order). -/
def incr : List (String × ℕ) → String → List (String × ℕ)
  | [], e => [(e, 1)]
  | (k, c) :: rest, e => if k = e then (k, c + 1) :: rest else (k, c) :: incr rest e

/-- The `for entry in os.scandir(...)` loop of `scan_folder` (lines 34-45),
with the two accumulators `file_sizes` and `extensions`.  `entry.stat()` has no
surrounding try/except, so a failing stat (`stSize = none`) propagates as an
exception and the whole scan returns `Except.error`. -/
def scanGo (filterExts : Option (List String)) (minSize maxSize : Option ℚ) :
    List DirEntry → List (String × ℤ) → List (String × ℕ) →
    Except Unit (List (String × ℤ) × List (String × ℕ))
  | [], fileSizes, extensions => .ok (fileSizes, extensions)
  | e :: rest, fileSizes, extensions =>
    if isFileNoFollow e.kind then
      if extSkip filterExts (ext_of e.name) then
        scanGo filterExts minSize maxSize rest fileSizes extensions
      else
        match e.stSize with
        | none => .error ()
        | some size =>
          if belowMin minSize size then
            scanGo filterExts minSize maxSize rest fileSizes extensions
          else if aboveMax maxSize size then
            scanGo filterExts minSize maxSize rest fileSizes extensions
          else
            scanGo filterExts minSize maxSize rest
              (fileSizes ++ [(e.name, size)]) (incr extensions (ext_of e.name))
    else scanGo filterExts minSize maxSize rest fileSizes extensions

/-- Function `scan_folder` (src/folder_scanner.py lines 29-47), over the entry list the
filesystem enumerates. -/
def scan_folder (entries : List DirEntry) (filterExts : Option (List String))
    (minSize maxSize : Option ℚ) : Except Unit (List (String × ℤ) × List (String × ℕ)) :=
  scanGo filterExts minSize maxSize entries [] []

/-! ### `build_report` fragments -/

/-- Expression `max(file_sizes, key=lambda x: x[1]) if file_sizes else ("N/A", 0)`
(src/folder_scanner.py line 63).  Python `max` keeps the current maximum and
replaces it only on a strictly greater key, hence returns the first of several
maximal elements. -/
def largest_file (fileSizes : List (String × ℤ)) : String × ℤ :=
  match fileSizes with
  | [] => ("N/A", 0)
  | x :: rest => rest.foldl (fun best y => if best.2 < y.2 then y else best) x

/-- Line 62: `total_size = sum(size for _, size in file_sizes)`. -/
def total_size (fileSizes : List (String × ℤ)) : ℤ := (fileSizes.map Prod.snd).sum

/-- Sum of the occurrence counts of an extension tally. -/
def tallySum (t : List (String × ℕ)) : ℕ := (t.map Prod.snd).sum

/-! ### Spec-side apparatus -/

/-- Modelled from the spec: the binary multiplier of a rendered unit label, the
"unit-aware comparator" of the size round-trip monotonicity property. -/
def unitMult (u : List Char) : Option ℚ :=
  if u = ['B'] then some (1024 ^ 0)
  else if u = ['K', 'i', 'B'] then some (1024 ^ 1)
  else if u = ['M', 'i', 'B'] then some (1024 ^ 2)
  else if u = ['G', 'i', 'B'] then some (1024 ^ 3)
  else if u = ['T', 'i', 'B'] then some (1024 ^ 4)
  else if u = ['P', 'i', 'B'] then some (1024 ^ 5)
  else none

/-- Modelled from the spec: decode a formatted `"<value> <unit>"` string back
to a byte count via the unit's binary multiplier. -/
def decodeSize (s : String) : Option ℚ :=
  match breakAt ' ' s.data with
  | (_, none) => none
  | (num, some u) =>
    match unitMult u with
    | none => none
    | some mult => (parseSigned num).map (fun q => q * mult)

/-- Modelled from the spec: the unit index of the ladder the spec claims for
the formatter, `B, KiB, MiB, GiB, TiB, PiB, EiB` with fallback `EiB`. -/
def chooseUnitSpec (q : ℚ) : ℕ :=
  if q < 1024 then 0
  else if q < 1024 ^ 2 then 1
  else if q < 1024 ^ 3 then 2
  else if q < 1024 ^ 4 then 3
  else if q < 1024 ^ 5 then 4
  else if q < 1024 ^ 6 then 5
  else 6

/-- Modelled from the spec: unit names of the claimed ladder, through `EiB`. -/
def unitNameSpec (k : ℕ) : List Char :=
  [['B'], ['K', 'i', 'B'], ['M', 'i', 'B'], ['G', 'i', 'B'], ['T', 'i', 'B'],
   ['P', 'i', 'B'], ['E', 'i', 'B']].getD k ['E', 'i', 'B']

/-- Modelled from the spec: the formatter the spec describes, selecting its
unit by the claimed ladder. -/
def formatSizeSpec (q : ℚ) : String :=
  String.mk (formatTwoDecL (q / 1024 ^ chooseUnitSpec q) ++ ' ' :: unitNameSpec (chooseUnitSpec q))

/-- The comparison step of Python `max(..., key=lambda x: x[1])`. -/
def maxStep (best y : String × ℤ) : String × ℤ := if best.2 < y.2 then y else best

/-- Byte value a formatted size decodes back to: the rounded two-decimal value
times the selected unit's multiplier. -/
def decodedFormat (b : ℚ) : ℚ :=
  (rhe ((b / 1024 ^ chooseUnit b) * 100) : ℚ) / 100 * 1024 ^ chooseUnit b

/-! ### Lemmas -/

/-! ### Step equations for the scan loop -/

theorem scanGo_cons_notfile (fx : Option (List String)) (mn mx : Option ℚ) (e : DirEntry)
    (l : List DirEntry) (fs : List (String × ℤ)) (ex : List (String × ℕ))
    (hk : isFileNoFollow e.kind = false) :
    scanGo fx mn mx (e :: l) fs ex = scanGo fx mn mx l fs ex := by
  simp [scanGo, hk]

theorem scanGo_cons_extskip (fx : Option (List String)) (mn mx : Option ℚ) (e : DirEntry)
    (l : List DirEntry) (fs : List (String × ℤ)) (ex : List (String × ℕ))
    (hk : isFileNoFollow e.kind = true) (hskip : extSkip fx (ext_of e.name) = true) :
    scanGo fx mn mx (e :: l) fs ex = scanGo fx mn mx l fs ex := by
  simp [scanGo, hk, hskip]

theorem scanGo_cons_statfail (fx : Option (List String)) (mn mx : Option ℚ) (e : DirEntry)
    (l : List DirEntry) (fs : List (String × ℤ)) (ex : List (String × ℕ))
    (hk : isFileNoFollow e.kind = true) (hskip : extSkip fx (ext_of e.name) = false)
    (hsz : e.stSize = none) :
    scanGo fx mn mx (e :: l) fs ex = .error () := by
  simp [scanGo, hk, hskip, hsz]

theorem scanGo_cons_minskip (fx : Option (List String)) (mn mx : Option ℚ) (e : DirEntry)
    (l : List DirEntry) (fs : List (String × ℤ)) (ex : List (String × ℕ)) (size : ℤ)
    (hk : isFileNoFollow e.kind = true) (hskip : extSkip fx (ext_of e.name) = false)
    (hsz : e.stSize = some size) (hmin : belowMin mn size = true) :
    scanGo fx mn mx (e :: l) fs ex = scanGo fx mn mx l fs ex := by
  simp [scanGo, hk, hskip, hsz, hmin]

theorem scanGo_cons_maxskip (fx : Option (List String)) (mn mx : Option ℚ) (e : DirEntry)
    (l : List DirEntry) (fs : List (String × ℤ)) (ex : List (String × ℕ)) (size : ℤ)
    (hk : isFileNoFollow e.kind = true) (hskip : extSkip fx (ext_of e.name) = false)
    (hsz : e.stSize = some size) (hmax : aboveMax mx size = true) :
    scanGo fx mn mx (e :: l) fs ex = scanGo fx mn mx l fs ex := by
  simp [scanGo, hk, hskip, hsz, hmax]

theorem scanGo_cons_keep (fx : Option (List String)) (mn mx : Option ℚ) (e : DirEntry)
    (l : List DirEntry) (fs : List (String × ℤ)) (ex : List (String × ℕ)) (size : ℤ)
    (hk : isFileNoFollow e.kind = true) (hskip : extSkip fx (ext_of e.name) = false)
    (hsz : e.stSize = some size) (hmin : belowMin mn size = false)
    (hmax : aboveMax mx size = false) :
    scanGo fx mn mx (e :: l) fs ex =
      scanGo fx mn mx l (fs ++ [(e.name, size)]) (incr ex (ext_of e.name)) := by
  simp [scanGo, hk, hskip, hsz, hmin, hmax]

theorem tallySum_incr (t : List (String × ℕ)) (e : String) :
    tallySum (incr t e) = tallySum t + 1 := by
  induction t with
  | nil => simp [incr, tallySum]
  | cons p rest ih =>
    obtain ⟨k, c⟩ := p
    by_cases h : k = e
    · simp [incr, h, tallySum]; ring
    · simp only [incr, if_neg h]
      simp [tallySum] at ih ⊢
      omega

theorem scanGo_ok_inv (fx : Option (List String)) (mn mx : Option ℚ)
    (P : List (String × ℤ) → List (String × ℕ) → Prop)
    (hstep : ∀ fs ex (e : DirEntry) size, isFileNoFollow e.kind = true →
      extSkip fx (ext_of e.name) = false → e.stSize = some size →
      belowMin mn size = false → aboveMax mx size = false →
      P fs ex → P (fs ++ [(e.name, size)]) (incr ex (ext_of e.name))) :
    ∀ (entries : List DirEntry) fs ex fs' ex',
      scanGo fx mn mx entries fs ex = .ok (fs', ex') → P fs ex → P fs' ex' := by
  intro entries
  induction entries with
  | nil =>
    intro fs ex fs' ex' h hP
    simp only [scanGo, Except.ok.injEq, Prod.mk.injEq] at h
    obtain ⟨rfl, rfl⟩ := h
    exact hP
  | cons e rest ih =>
    intro fs ex fs' ex' h hP
    cases hk : isFileNoFollow e.kind with
    | false =>
      rw [scanGo_cons_notfile fx mn mx e rest fs ex hk] at h
      exact ih _ _ _ _ h hP
    | true =>
      cases hskip : extSkip fx (ext_of e.name) with
      | true =>
        rw [scanGo_cons_extskip fx mn mx e rest fs ex hk hskip] at h
        exact ih _ _ _ _ h hP
      | false =>
        cases hsz : e.stSize with
        | none =>
          rw [scanGo_cons_statfail fx mn mx e rest fs ex hk hskip hsz] at h
          cases h
        | some size =>
          cases hmin : belowMin mn size with
          | true =>
            rw [scanGo_cons_minskip fx mn mx e rest fs ex size hk hskip hsz hmin] at h
            exact ih _ _ _ _ h hP
          | false =>
            cases hmax : aboveMax mx size with
            | true =>
              rw [scanGo_cons_maxskip fx mn mx e rest fs ex size hk hskip hsz hmax] at h
              exact ih _ _ _ _ h hP
            | false =>
              rw [scanGo_cons_keep fx mn mx e rest fs ex size hk hskip hsz hmin hmax] at h
              exact ih _ _ _ _ h (hstep fs ex e size hk hskip hsz hmin hmax hP)

theorem scanGo_error_iff (fx : Option (List String)) (mn mx : Option ℚ) :
    ∀ (entries : List DirEntry) fs ex,
      scanGo fx mn mx entries fs ex = .error () ↔
      ∃ e ∈ entries, isFileNoFollow e.kind = true ∧
        extSkip fx (ext_of e.name) = false ∧ e.stSize = none := by
  intro entries
  induction entries with
  | nil => intro fs ex; simp [scanGo]
  | cons e rest ih =>
    intro fs ex
    rw [List.exists_mem_cons_iff]
    cases hk : isFileNoFollow e.kind with
    | false =>
      rw [scanGo_cons_notfile fx mn mx e rest fs ex hk, ih]
      simp [hk]
    | true =>
      cases hskip : extSkip fx (ext_of e.name) with
      | true =>
        rw [scanGo_cons_extskip fx mn mx e rest fs ex hk hskip, ih]
        simp [hskip]
      | false =>
        cases hsz : e.stSize with
        | none =>
          rw [scanGo_cons_statfail fx mn mx e rest fs ex hk hskip hsz]
          simp [hk, hskip, hsz]
        | some size =>
          cases hmin : belowMin mn size with
          | true =>
            rw [scanGo_cons_minskip fx mn mx e rest fs ex size hk hskip hsz hmin, ih]
            simp [hk, hskip, hsz]
          | false =>
            cases hmax : aboveMax mx size with
            | true =>
              rw [scanGo_cons_maxskip fx mn mx e rest fs ex size hk hskip hsz hmax, ih]
              simp [hk, hskip, hsz]
            | false =>
              rw [scanGo_cons_keep fx mn mx e rest fs ex size hk hskip hsz hmin hmax, ih]
              simp [hk, hskip, hsz]

theorem scanGo_skip_entry (fx : Option (List String)) (mn mx : Option ℚ) (e : DirEntry)
    (hk : isFileNoFollow e.kind = false) :
    ∀ (l1 l2 : List DirEntry) fs ex,
      scanGo fx mn mx (l1 ++ e :: l2) fs ex = scanGo fx mn mx (l1 ++ l2) fs ex := by
  intro l1
  induction l1 with
  | nil =>
    intro l2 fs ex
    rw [List.nil_append, List.nil_append, scanGo_cons_notfile fx mn mx e l2 fs ex hk]
  | cons e1 rest ih =>
    intro l2 fs ex
    rw [List.cons_append, List.cons_append]
    cases hk1 : isFileNoFollow e1.kind with
    | false =>
      rw [scanGo_cons_notfile fx mn mx e1 _ fs ex hk1,
        scanGo_cons_notfile fx mn mx e1 _ fs ex hk1, ih]
    | true =>
      cases hskip : extSkip fx (ext_of e1.name) with
      | true =>
        rw [scanGo_cons_extskip fx mn mx e1 _ fs ex hk1 hskip,
          scanGo_cons_extskip fx mn mx e1 _ fs ex hk1 hskip, ih]
      | false =>
        cases hsz : e1.stSize with
        | none =>
          rw [scanGo_cons_statfail fx mn mx e1 _ fs ex hk1 hskip hsz,
            scanGo_cons_statfail fx mn mx e1 _ fs ex hk1 hskip hsz]
        | some size =>
          cases hmin : belowMin mn size with
          | true =>
            rw [scanGo_cons_minskip fx mn mx e1 _ fs ex size hk1 hskip hsz hmin,
              scanGo_cons_minskip fx mn mx e1 _ fs ex size hk1 hskip hsz hmin, ih]
          | false =>
            cases hmax : aboveMax mx size with
            | true =>
              rw [scanGo_cons_maxskip fx mn mx e1 _ fs ex size hk1 hskip hsz hmax,
                scanGo_cons_maxskip fx mn mx e1 _ fs ex size hk1 hskip hsz hmax, ih]
            | false =>
              rw [scanGo_cons_keep fx mn mx e1 _ fs ex size hk1 hskip hsz hmin hmax,
                scanGo_cons_keep fx mn mx e1 _ fs ex size hk1 hskip hsz hmin hmax, ih]

theorem lastDotIdx_eq_none (cs : List Char) (h : '.' ∉ cs) : lastDotIdx cs = none := by
  induction cs with
  | nil => rfl
  | cons c rest ih =>
    simp only [List.mem_cons, not_or] at h
    simp only [lastDotIdx, ih h.2]
    rw [if_neg (fun hc => h.1 hc.symm)]

theorem largest_file_cons (x : String × ℤ) (rest : List (String × ℤ)) :
    largest_file (x :: rest) = rest.foldl maxStep x := rfl

theorem foldMax_split (rest : List (String × ℤ)) :
    ∀ x : String × ℤ,
      ∃ pre post,
        x :: rest = pre ++ (rest.foldl maxStep x) :: post ∧
        (∀ r ∈ pre, r.2 < (rest.foldl maxStep x).2) ∧
        ∀ r ∈ x :: rest, r.2 ≤ (rest.foldl maxStep x).2 := by
  induction rest with
  | nil => intro x; exact ⟨[], [], by simp, by simp, by simp⟩
  | cons y rest' ih =>
    intro x
    by_cases hxy : x.2 < y.2
    · have hfold : (y :: rest').foldl maxStep x = rest'.foldl maxStep y := by
        simp [List.foldl_cons, maxStep, hxy]
      rw [hfold]
      obtain ⟨pre', post', hsplit, hpre, hle⟩ := ih y
      refine ⟨x :: pre', post', ?_, ?_, ?_⟩
      · rw [List.cons_append, ← hsplit]
      · intro r hr
        rcases List.mem_cons.1 hr with rfl | hmem
        · exact lt_of_lt_of_le hxy (hle y (List.mem_cons_self _ _))
        · exact hpre r hmem
      · intro r hr
        rcases List.mem_cons.1 hr with rfl | hmem
        · exact le_of_lt (lt_of_lt_of_le hxy (hle y (List.mem_cons_self _ _)))
        · exact hle r hmem
    · have hfold : (y :: rest').foldl maxStep x = rest'.foldl maxStep x := by
        simp [List.foldl_cons, maxStep, hxy]
      rw [hfold]
      obtain ⟨pre', post', hsplit, hpre, hle⟩ := ih x
      cases pre' with
      | nil =>
        rw [List.nil_append] at hsplit
        injection hsplit with hx hrest
        refine ⟨[], y :: rest', ?_, by simp, ?_⟩
        · rw [List.nil_append, ← hx]
        · intro r hr
          rcases List.mem_cons.1 hr with rfl | hmem
          · exact hle r (List.mem_cons_self _ _)
          · rcases List.mem_cons.1 hmem with rfl | hmem'
            · exact le_trans (le_of_not_lt hxy) (hle x (List.mem_cons_self _ _))
            · exact hle r (List.mem_cons_of_mem _ hmem')
      | cons p pre'' =>
        rw [List.cons_append] at hsplit
        injection hsplit with hx hrest
        refine ⟨x :: y :: pre'', post', ?_, ?_, ?_⟩
        · rw [List.cons_append, List.cons_append, ← hrest]
        · intro r hr
          rcases List.mem_cons.1 hr with rfl | hmem
          · have hpx := hpre p (List.mem_cons_self _ _)
            rw [← hx] at hpx
            exact hpx
          · rcases List.mem_cons.1 hmem with rfl | hmem'
            · have hpx := hpre p (List.mem_cons_self _ _)
              rw [← hx] at hpx
              exact lt_of_le_of_lt (le_of_not_lt hxy) hpx
            · exact hpre r (List.mem_cons_of_mem _ hmem')
        · intro r hr
          rcases List.mem_cons.1 hr with rfl | hmem
          · exact hle r (List.mem_cons_self _ _)
          · rcases List.mem_cons.1 hmem with rfl | hmem'
            · exact le_trans (le_of_not_lt hxy) (hle x (List.mem_cons_self _ _))
            · exact hle r (List.mem_cons_of_mem _ hmem')

/-- C4: the sum of tally counts equals the number of records, for every
successful scan under every filter combination. -/
theorem scan_folder_tally_sum (entries : List DirEntry) (fx : Option (List String))
    (mn mx : Option ℚ) (recs : List (String × ℤ)) (tly : List (String × ℕ))
    (h : scan_folder entries fx mn mx = .ok (recs, tly)) :
    tallySum tly = recs.length := by
  refine scanGo_ok_inv fx mn mx (fun fs ex => tallySum ex = fs.length) ?_ entries [] [] recs tly h
    (by simp [tallySum])
  intro fs ex e size _ _ _ _ _ hP
  simp [tallySum_incr, hP]

theorem scan_folder_tally_sum_witness :
    scan_folder [⟨"a.txt", .regular, some 1⟩, ⟨"b.md", .regular, some 2⟩] none none none =
      .ok ([("a.txt", 1), ("b.md", 2)], [(".txt", 1), (".md", 1)]) ∧
    tallySum [(".txt", 1), (".md", 1)] = [(("a.txt" : String), (1 : ℤ)), ("b.md", 2)].length :=
  ⟨rfl, scan_folder_tally_sum [⟨"a.txt", .regular, some 1⟩, ⟨"b.md", .regular, some 2⟩]
    none none none _ _ rfl⟩

/-- C5 amended: every record of a successful scan satisfies the filters, with
the caveat that a present-but-empty allowedExtensions set is treated as no
filter, and the tally is built exactly from the kept records. -/
theorem scan_folder_records_satisfy (entries : List DirEntry) (fx : Option (List String))
    (mn mx : Option ℚ) (recs : List (String × ℤ)) (tly : List (String × ℕ))
    (h : scan_folder entries fx mn mx = .ok (recs, tly)) :
    (∀ r ∈ recs,
      (∀ l, fx = some l → l ≠ [] → ext_of r.1 ∈ l) ∧
      (∀ m, mn = some m → m ≤ (r.2 : ℚ)) ∧
      (∀ m, mx = some m → (r.2 : ℚ) ≤ m)) ∧
    tly = recs.foldl (fun t r => incr t (ext_of r.1)) [] := by
  refine scanGo_ok_inv fx mn mx
    (fun fs ex =>
      (∀ r ∈ fs,
        (∀ l, fx = some l → l ≠ [] → ext_of r.1 ∈ l) ∧
        (∀ m, mn = some m → m ≤ (r.2 : ℚ)) ∧
        (∀ m, mx = some m → (r.2 : ℚ) ≤ m)) ∧
      ex = fs.foldl (fun t r => incr t (ext_of r.1)) []) ?_ entries [] [] recs tly h
    ⟨by simp, rfl⟩
  intro fs ex e size _ hskip _ hmin hmax hP
  constructor
  · intro r hr
    rcases List.mem_append.1 hr with hmem | hmem
    · exact hP.1 r hmem
    · have hr' := List.mem_singleton.1 hmem
      subst hr'
      refine ⟨?_, ?_, ?_⟩
      · rintro l rfl hne
        by_cases hd : ext_of e.name ∈ l
        · exact hd
        · exfalso
          simp [extSkip, hd, List.isEmpty_iff] at hskip
          exact hne hskip
      · rintro m rfl
        simp only [belowMin, decide_eq_false_iff_not, not_lt] at hmin
        exact hmin
      · rintro m rfl
        simp only [aboveMax, decide_eq_false_iff_not, not_lt] at hmax
        exact hmax
  · rw [List.foldl_append, ← hP.2]
    simp

theorem scan_folder_records_satisfy_witness :
    (∀ r ∈ [(("a.txt" : String), (1 : ℤ))],
      (∀ l, (some [".txt"] : Option (List String)) = some l → l ≠ [] → ext_of r.1 ∈ l) ∧
      (∀ m, (none : Option ℚ) = some m → m ≤ (r.2 : ℚ)) ∧
      (∀ m, (none : Option ℚ) = some m → (r.2 : ℚ) ≤ m)) ∧
    [(".txt", 1)] = [(("a.txt" : String), (1 : ℤ))].foldl (fun t r => incr t (ext_of r.1)) [] :=
  scan_folder_records_satisfy [⟨"a.txt", .regular, some 1⟩] (some [".txt"]) none none _ _ rfl

/-- C5 counterexample: with a present-but-empty allowedExtensions set the file
"a.txt" is kept although its extension is not in the set. -/
theorem scan_folder_empty_filter_cx :
    scan_folder [⟨"a.txt", .regular, some 1⟩] (some []) none none =
      .ok ([("a.txt", 1)], [(".txt", 1)]) ∧
    ext_of ("a.txt") ∉ ([] : List String) :=
  ⟨rfl, by simp⟩

/-- C3 counterexample: one failing stat aborts the whole scan instead of
skipping the entry, although the remaining entry alone scans fine. -/
theorem scan_folder_stat_failure_cx :
    scan_folder [⟨"a.txt", .regular, none⟩, ⟨"b.txt", .regular, some 1⟩] none none none =
      .error () ∧
    scan_folder [⟨"b.txt", .regular, some 1⟩] none none none =
      .ok ([("b.txt", 1)], [(".txt", 1)]) :=
  ⟨rfl, rfl⟩

/-- C3 amended: the scan fails exactly when some regular-file entry that passes
the extension filter fails to stat; the failure is never skipped. -/
theorem scan_folder_error_iff (entries : List DirEntry) (fx : Option (List String))
    (mn mx : Option ℚ) :
    scan_folder entries fx mn mx = .error () ↔
    ∃ e ∈ entries, isFileNoFollow e.kind = true ∧
      extSkip fx (ext_of e.name) = false ∧ e.stSize = none :=
  scanGo_error_iff fx mn mx entries [] []

theorem scan_folder_error_iff_witness :
    scan_folder [⟨"a.txt", .regular, none⟩] none none none = .error () ↔
    ∃ e ∈ [(⟨"a.txt", .regular, none⟩ : DirEntry)], isFileNoFollow e.kind = true ∧
      extSkip none (ext_of e.name) = false ∧ e.stSize = none :=
  scan_folder_error_iff [⟨"a.txt", .regular, none⟩] none none none

/-- C9: a symbolic-link entry (to any target) contributes to neither records
nor tally: removing it leaves every scan unchanged. -/
theorem scan_folder_symlink_excluded (l1 l2 : List DirEntry) (name : String) (k : FileKind)
    (sz : Option ℤ) (fx : Option (List String)) (mn mx : Option ℚ) :
    scan_folder (l1 ++ ⟨name, .symlinkTo k, sz⟩ :: l2) fx mn mx =
      scan_folder (l1 ++ l2) fx mn mx :=
  scanGo_skip_entry fx mn mx ⟨name, .symlinkTo k, sz⟩ rfl l1 l2 [] []

theorem scan_folder_symlink_excluded_witness :
    scan_folder [⟨"a.txt", .regular, some 3⟩, ⟨"link.txt", .symlinkTo .regular, some 7⟩]
        none none none =
      scan_folder ([⟨"a.txt", .regular, some 3⟩] ++ []) none none none :=
  scan_folder_symlink_excluded [⟨"a.txt", .regular, some 3⟩] [] "link.txt" .regular
    (some 7) none none none

/-- C10: a name whose only dot is its leading character normalizes to the
"(no extension)" sentinel, and a nonempty allowedExtensions filter not
containing the sentinel therefore always excludes such a file. -/
theorem dotfile_no_extension (cs : List Char) (h : '.' ∉ cs) :
    ext_of (String.mk ('.' :: cs)) = "(no extension)" ∧
    ∀ (l : List String) (sz : ℤ), l ≠ [] → "(no extension)" ∉ l →
      scan_folder [⟨String.mk ('.' :: cs), .regular, some sz⟩] (some l) none none =
        .ok ([], []) := by
  have hext : ext_of (String.mk ('.' :: cs)) = "(no extension)" := by
    have hld : lastDotIdx ('.' :: cs) = some 0 := by
      simp [lastDotIdx, lastDotIdx_eq_none cs h]
    simp [ext_of, splitextExt, hld]
  refine ⟨hext, ?_⟩
  intro l sz hne hnm
  have hskip : extSkip (some l) (ext_of (String.mk ('.' :: cs))) = true := by
    rw [hext]
    simp [extSkip, hnm, List.isEmpty_iff, hne]
  rw [scan_folder,
    scanGo_cons_extskip (some l) none none ⟨String.mk ('.' :: cs), .regular, some sz⟩ [] [] []
      rfl hskip]
  rfl

theorem dotfile_no_extension_witness :
    ext_of (".gitignore") = "(no extension)" ∧
    scan_folder [⟨".gitignore", .regular, some 5⟩] (some [".txt"]) none none = .ok ([], []) := by
  obtain ⟨h1, h2⟩ := dotfile_no_extension ("gitignore".data) (by decide)
  exact ⟨h1, h2 [".txt"] 5 (by simp) (by simp)⟩

/-- C6: the largest file is the first record of maximal size, and the sentinel
on an empty record list. -/
theorem largest_file_spec (fs : List (String × ℤ)) :
    (fs = [] → largest_file fs = ("N/A", 0)) ∧
    (fs ≠ [] → ∃ pre post, fs = pre ++ largest_file fs :: post ∧
      (∀ r ∈ pre, r.2 < (largest_file fs).2) ∧ ∀ r ∈ fs, r.2 ≤ (largest_file fs).2) := by
  constructor
  · rintro rfl; rfl
  · intro hne
    cases fs with
    | nil => exact absurd rfl hne
    | cons x rest =>
      rw [largest_file_cons]
      exact foldMax_split rest x

theorem largest_file_spec_witness :
    ∃ pre post, [(("a" : String), (5 : ℤ)), ("b", 5)] =
        pre ++ largest_file [("a", 5), ("b", 5)] :: post ∧
      (∀ r ∈ pre, r.2 < (largest_file [("a", 5), ("b", 5)]).2) ∧
      ∀ r ∈ [(("a" : String), (5 : ℤ)), ("b", 5)], r.2 ≤ (largest_file [("a", 5), ("b", 5)]).2 :=
  (largest_file_spec [("a", 5), ("b", 5)]).2 (by simp)

/-! ### Digit-string lemmas -/

theorem digitChar_isDigit : ∀ d : ℕ, d < 10 → (digitChar d).isDigit = true := by decide

theorem digitChar_toNat : ∀ d : ℕ, d < 10 → (digitChar d).toNat = 48 + d := by decide

theorem digitsVal_append_singleton (l : List Char) (c : Char) :
    digitsVal (l ++ [c]) = 10 * digitsVal l + (c.toNat - 48) := by
  simp [digitsVal, List.foldl_append]

theorem natDigitsAux_spec : ∀ (fuel n : ℕ), n < fuel →
    allDigits (natDigitsAux fuel n) = true ∧ natDigitsAux fuel n ≠ [] ∧
    digitsVal (natDigitsAux fuel n) = n := by
  intro fuel
  induction fuel with
  | zero => intro n hn; omega
  | succ fuel ih =>
    intro n hn
    by_cases h10 : n < 10
    · refine ⟨?_, ?_, ?_⟩
      · simp [natDigitsAux, h10, allDigits, digitChar_isDigit n h10]
      · simp [natDigitsAux, h10]
      · simp [natDigitsAux, h10, digitsVal, digitChar_toNat n h10]
    · have hdiv : n / 10 < fuel := by
        have := Nat.div_lt_self (by omega : 0 < n) (by omega : 1 < 10)
        omega
      obtain ⟨hall, hne, hval⟩ := ih (n / 10) hdiv
      refine ⟨?_, ?_, ?_⟩
      · simp only [natDigitsAux, if_neg h10, allDigits, List.all_append]
        rw [Bool.and_eq_true]
        exact ⟨hall, by simp [digitChar_isDigit (n % 10) (Nat.mod_lt n (by omega))]⟩
      · simp [natDigitsAux, h10]
      · simp only [natDigitsAux, if_neg h10]
        rw [digitsVal_append_singleton, hval, digitChar_toNat (n % 10) (Nat.mod_lt n (by omega))]
        omega

theorem natToStr_spec (n : ℕ) :
    allDigits (natToStr n) = true ∧ natToStr n ≠ [] ∧ digitsVal (natToStr n) = n :=
  natDigitsAux_spec (n + 1) n (by omega)

theorem isDigit_ne_special (c : Char) (h : c.isDigit = true) :
    c ≠ '+' ∧ c ≠ '-' ∧ c ≠ '.' ∧ c ≠ ' ' := by
  refine ⟨?_, ?_, ?_, ?_⟩ <;> rintro rfl <;> exact absurd h (by decide)

theorem allDigits_not_mem (l : List Char) (h : allDigits l = true) (c : Char)
    (hc : c.isDigit = false) : c ∉ l := by
  intro hm
  have := List.all_eq_true.1 h c hm
  rw [hc] at this
  cases this

/-! ### breakAt lemmas -/

theorem breakAt_append (sep : Char) (a b : List Char) (ha : sep ∉ a) :
    breakAt sep (a ++ sep :: b) = (a, some b) := by
  induction a with
  | nil => simp [breakAt]
  | cons c a' ih =>
    simp only [List.mem_cons, not_or] at ha
    have hc : ¬ c = sep := fun h => ha.1 h.symm
    simp [breakAt, hc, ih ha.2]

theorem breakAt_none (sep : Char) (a : List Char) (ha : sep ∉ a) :
    breakAt sep a = (a, none) := by
  induction a with
  | nil => simp [breakAt]
  | cons c a' ih =>
    simp only [List.mem_cons, not_or] at ha
    have hc : ¬ c = sep := fun h => ha.1 h.symm
    simp [breakAt, hc, ih ha.2]

/-! ### Number-parser correctness on printed output -/

theorem parseUnsigned_digits (ip fp : List Char) (hip : allDigits ip = true) (hne : ip ≠ [])
    (hfp : allDigits fp = true) :
    parseUnsigned (ip ++ '.' :: fp) =
      some ((digitsVal ip : ℚ) + (digitsVal fp : ℚ) / (10 : ℚ) ^ fp.length) := by
  have hdot : '.' ∉ ip := allDigits_not_mem ip hip '.' (by decide)
  simp [parseUnsigned, breakAt_append '.' ip fp hdot, hne, hip, hfp]

theorem parseSigned_eq_parseUnsigned (c : Char) (rest : List Char) (h : c.isDigit = true) :
    parseSigned (c :: rest) = parseUnsigned (c :: rest) := by
  obtain ⟨h1, h2, _, _⟩ := isDigit_ne_special c h
  simp [parseSigned, h1, h2]

/-! ### rhe lemmas -/

theorem rhe_floor_le (q : ℚ) : ⌊q⌋ ≤ rhe q := by
  unfold rhe
  split_ifs <;> omega

theorem rhe_le_floor_add_one (q : ℚ) : rhe q ≤ ⌊q⌋ + 1 := by
  unfold rhe
  split_ifs <;> omega

theorem rhe_nonneg (q : ℚ) (h : 0 ≤ q) : 0 ≤ rhe q :=
  le_trans (Int.floor_nonneg.2 h) (rhe_floor_le q)

theorem rhe_intCast (n : ℤ) : rhe ((n : ℤ) : ℚ) = n := by
  unfold rhe
  rw [Int.floor_intCast]
  rw [if_pos (by norm_num : ((n : ℤ) : ℚ) - n < 1 / 2)]

theorem rhe_mono (q1 q2 : ℚ) (h : q1 ≤ q2) : rhe q1 ≤ rhe q2 := by
  rcases lt_or_le ⌊q1⌋ ⌊q2⌋ with hf | hf
  · exact le_trans (rhe_le_floor_add_one q1) (le_trans (by omega) (rhe_floor_le q2))
  · have hfe : ⌊q1⌋ = ⌊q2⌋ := le_antisymm (Int.floor_le_floor h) hf
    unfold rhe
    rw [hfe]
    split_ifs <;> first | omega | linarith

theorem rhe_eq_of_lt_half (q : ℚ) (n : ℤ) (h1 : (n : ℚ) ≤ q) (h2 : q < (n : ℚ) + 1 / 2) :
    rhe q = n := by
  have hf : ⌊q⌋ = n := by
    rw [Int.floor_eq_iff]
    exact ⟨h1, by linarith⟩
  unfold rhe
  rw [hf, if_pos (by linarith : q - (n : ℚ) < 1 / 2)]

theorem rhe_eq_of_gt_half (q : ℚ) (n : ℤ) (h1 : (n : ℚ) + 1 / 2 < q) (h2 : q < (n : ℚ) + 1) :
    rhe q = n + 1 := by
  have hf : ⌊q⌋ = n := by
    rw [Int.floor_eq_iff]
    constructor
    · linarith
    · linarith
  unfold rhe
  rw [hf, if_neg (by linarith : ¬ q - (n : ℚ) < 1 / 2),
    if_pos (by linarith : 1 / 2 < q - (n : ℚ))]

/-! ### formatTwoDecL lemmas -/

theorem formatTwoDecL_nonneg (q : ℚ) (hq : 0 ≤ q) :
    formatTwoDecL q = natToStr ((rhe (q * 100)).natAbs / 100) ++ '.' ::
      [digitChar ((rhe (q * 100)).natAbs % 100 / 10),
       digitChar ((rhe (q * 100)).natAbs % 100 % 10)] := by
  simp [formatTwoDecL, not_lt.2 hq]

theorem parseSigned_formatTwoDecL (q : ℚ) (hq : 0 ≤ q) :
    parseSigned (formatTwoDecL q) = some ((rhe (q * 100) : ℚ) / 100) := by
  rw [formatTwoDecL_nonneg q hq]
  obtain ⟨hall, hne, hval⟩ := natToStr_spec ((rhe (q * 100)).natAbs / 100)
  have hd1 : (rhe (q * 100)).natAbs % 100 / 10 < 10 := by omega
  have hd2 : (rhe (q * 100)).natAbs % 100 % 10 < 10 := by omega
  have hfp : allDigits [digitChar ((rhe (q * 100)).natAbs % 100 / 10),
      digitChar ((rhe (q * 100)).natAbs % 100 % 10)] = true := by
    simp [allDigits, digitChar_isDigit _ hd1, digitChar_isDigit _ hd2]
  cases hns : natToStr ((rhe (q * 100)).natAbs / 100) with
  | nil => exact absurd hns hne
  | cons c rest =>
    have hcd : c.isDigit = true := by
      rw [hns] at hall
      simp only [allDigits, List.all_cons, Bool.and_eq_true] at hall
      exact hall.1
    rw [List.cons_append, parseSigned_eq_parseUnsigned c _ hcd, ← List.cons_append, ← hns,
      parseUnsigned_digits _ _ hall (hns ▸ hne) hfp]
    congr 1
    rw [hval]
    have hvfp : digitsVal [digitChar ((rhe (q * 100)).natAbs % 100 / 10),
        digitChar ((rhe (q * 100)).natAbs % 100 % 10)] = (rhe (q * 100)).natAbs % 100 := by
      simp only [digitsVal, List.foldl_cons, List.foldl_nil,
        digitChar_toNat _ hd1, digitChar_toNat _ hd2]
      omega
    rw [hvfp]
    have hm : ((rhe (q * 100)).natAbs : ℤ) = rhe (q * 100) :=
      Int.natAbs_of_nonneg (rhe_nonneg _ (by positivity))
    have hcast : ((rhe (q * 100) : ℤ) : ℚ) = ((rhe (q * 100)).natAbs : ℚ) := by
      rw [← hm]
      exact Int.cast_natCast _
    rw [hcast, List.length_cons, List.length_cons, List.length_nil]
    have h100 : ((10 : ℚ)) ^ (0 + 1 + 1) = 100 := by norm_num
    rw [h100]
    field_simp
    norm_cast
    omega

theorem space_not_mem_formatTwoDecL (q : ℚ) (hq : 0 ≤ q) : ' ' ∉ formatTwoDecL q := by
  rw [formatTwoDecL_nonneg q hq]
  intro hm
  rcases List.mem_append.1 hm with hm1 | hm2
  · exact allDigits_not_mem _ (natToStr_spec _).1 ' ' (by decide) hm1
  · rcases List.mem_cons.1 hm2 with h | h
    · cases h
    · rcases List.mem_cons.1 h with h' | h'
      · have hdig : (' ' : Char).isDigit = true := by
          rw [h']
          exact digitChar_isDigit _ (by omega)
        exact absurd hdig (by decide)
      · rcases List.mem_cons.1 h' with h'' | h''
        · have hdig : (' ' : Char).isDigit = true := by
            rw [h'']
            exact digitChar_isDigit _ (by omega)
          exact absurd hdig (by decide)
        · cases h''

/-! ### Unit-table lemmas -/

theorem unitMult_unitName : ∀ k : ℕ, k ≤ 5 → unitMult (unitName k) = some ((1024 : ℚ) ^ k) := by
  intro k hk
  interval_cases k <;> rfl

theorem decodeSize_render (v : ℚ) (hv : 0 ≤ v) (k : ℕ) (hk : k ≤ 5) :
    decodeSize (String.mk (formatTwoDecL v ++ ' ' :: unitName k)) =
      some ((rhe (v * 100) : ℚ) / 100 * 1024 ^ k) := by
  have hdata : (String.mk (formatTwoDecL v ++ ' ' :: unitName k)).data =
      formatTwoDecL v ++ ' ' :: unitName k := rfl
  simp only [decodeSize, hdata, breakAt_append ' ' _ _ (space_not_mem_formatTwoDecL v hv),
    unitMult_unitName k hk, parseSigned_formatTwoDecL v hv, Option.map_some']

/-! ### chooseUnit lemmas -/

theorem chooseUnit_le (q : ℚ) : chooseUnit q ≤ 5 := by
  unfold chooseUnit
  split_ifs <;> omega

theorem div_pow_lt_1024 (q : ℚ) (k : ℕ) (h : q < 1024 ^ (k + 1)) : q / 1024 ^ k < 1024 := by
  rw [div_lt_iff₀ (pow_pos (by norm_num) k)]
  calc q < 1024 ^ (k + 1) := h
    _ = 1024 * 1024 ^ k := by rw [pow_succ']

theorem le_div_pow_1024 (q : ℚ) (k : ℕ) (h : 1024 ^ (k + 1) ≤ q) : 1024 ≤ q / 1024 ^ k := by
  rw [le_div_iff₀ (pow_pos (by norm_num) k)]
  calc (1024 : ℚ) * 1024 ^ k = 1024 ^ (k + 1) := (pow_succ' _ _).symm
    _ ≤ q := h

theorem chooseUnit_lt (q : ℚ) (h : chooseUnit q < 5) : q / 1024 ^ chooseUnit q < 1024 := by
  unfold chooseUnit at *
  split_ifs at * with h0 h1 h2 h3 h4
  · rw [pow_zero, div_one]; exact h0
  · exact div_pow_lt_1024 q 1 (by simpa using h1)
  · exact div_pow_lt_1024 q 2 (by simpa using h2)
  · exact div_pow_lt_1024 q 3 (by simpa using h3)
  · exact div_pow_lt_1024 q 4 (by simpa using h4)
  · omega

theorem chooseUnit_min (q : ℚ) : ∀ j : ℕ, j < chooseUnit q → 1024 ^ (j + 1) ≤ q := by
  intro j hj
  unfold chooseUnit at hj
  split_ifs at hj with h0 h1 h2 h3 h4
  · omega
  · interval_cases j
    · simpa using not_lt.1 h0
  · interval_cases j
    · simpa using not_lt.1 h0
    · simpa using not_lt.1 h1
  · interval_cases j
    · simpa using not_lt.1 h0
    · simpa using not_lt.1 h1
    · simpa using not_lt.1 h2
  · interval_cases j
    · simpa using not_lt.1 h0
    · simpa using not_lt.1 h1
    · simpa using not_lt.1 h2
    · simpa using not_lt.1 h3
  · interval_cases j
    · simpa using not_lt.1 h0
    · simpa using not_lt.1 h1
    · simpa using not_lt.1 h2
    · simpa using not_lt.1 h3
    · simpa using not_lt.1 h4

theorem chooseUnit_mono (q1 q2 : ℚ) (h : q1 ≤ q2) : chooseUnit q1 ≤ chooseUnit q2 := by
  unfold chooseUnit
  split_ifs <;> first | omega | (exfalso; linarith)

/-! ### The formatter's unit selection -/

theorem format_size_eq (q : ℚ) :
    format_size q =
      String.mk (formatTwoDecL (q / 1024 ^ chooseUnit q) ++ ' ' :: unitName (chooseUnit q)) := by
  have h1024 : (0 : ℚ) < 1024 := by norm_num
  by_cases h0 : q < 1024
  · have hc : chooseUnit q = 0 := by simp [chooseUnit, h0]
    rw [hc]
    simp only [format_size, formatUnits, formatSizeAux, if_pos h0, pow_zero, div_one]
    rfl
  · by_cases h1 : q < 1024 ^ 2
    · have hc : chooseUnit q = 1 := by simp [chooseUnit, h0, h1]
      have hd1 : q / 1024 < 1024 := by
        rw [div_lt_iff₀ h1024]
        calc q < 1024 ^ 2 := h1
          _ = 1024 * 1024 := by norm_num
      rw [hc]
      simp only [format_size, formatUnits, formatSizeAux, if_neg h0, if_pos hd1, pow_one]
      rfl
    · have hd1 : ¬ q / 1024 < 1024 := by
        rw [div_lt_iff₀ h1024]
        intro hcon
        exact h1 (by calc q < 1024 * 1024 := hcon
          _ = 1024 ^ 2 := by norm_num)
      by_cases h2 : q < 1024 ^ 3
      · have hc : chooseUnit q = 2 := by simp [chooseUnit, h0, h1, h2]
        have hd2 : q / 1024 / 1024 < 1024 := by
          rw [div_div, div_lt_iff₀ (by norm_num : (0 : ℚ) < 1024 * 1024)]
          calc q < 1024 ^ 3 := h2
            _ = 1024 * (1024 * 1024) := by norm_num
        rw [hc]
        simp only [format_size, formatUnits, formatSizeAux, if_neg h0, if_neg hd1, if_pos hd2]
        rw [show q / 1024 / 1024 = q / 1024 ^ 2 by rw [div_div]; norm_num]
        rfl
      · have hd2 : ¬ q / 1024 / 1024 < 1024 := by
          rw [div_div, div_lt_iff₀ (by norm_num : (0 : ℚ) < 1024 * 1024)]
          intro hcon
          exact h2 (by calc q < 1024 * (1024 * 1024) := hcon
            _ = 1024 ^ 3 := by norm_num)
        by_cases h3 : q < 1024 ^ 4
        · have hc : chooseUnit q = 3 := by simp [chooseUnit, h0, h1, h2, h3]
          have hd3 : q / 1024 / 1024 / 1024 < 1024 := by
            rw [div_div, div_div, div_lt_iff₀ (by norm_num : (0 : ℚ) < 1024 * (1024 * 1024))]
            calc q < 1024 ^ 4 := h3
              _ = 1024 * (1024 * (1024 * 1024)) := by norm_num
          rw [hc]
          simp only [format_size, formatUnits, formatSizeAux, if_neg h0, if_neg hd1, if_neg hd2,
            if_pos hd3]
          rw [show q / 1024 / 1024 / 1024 = q / 1024 ^ 3 by rw [div_div, div_div]; norm_num]
          rfl
        · have hd3 : ¬ q / 1024 / 1024 / 1024 < 1024 := by
            rw [div_div, div_div, div_lt_iff₀ (by norm_num : (0 : ℚ) < 1024 * (1024 * 1024))]
            intro hcon
            exact h3 (by calc q < 1024 * (1024 * (1024 * 1024)) := hcon
              _ = 1024 ^ 4 := by norm_num)
          by_cases h4 : q < 1024 ^ 5
          · have hc : chooseUnit q = 4 := by simp [chooseUnit, h0, h1, h2, h3, h4]
            have hd4 : q / 1024 / 1024 / 1024 / 1024 < 1024 := by
              rw [div_div, div_div, div_div,
                div_lt_iff₀ (by norm_num : (0 : ℚ) < 1024 * (1024 * (1024 * 1024)))]
              calc q < 1024 ^ 5 := h4
                _ = 1024 * (1024 * (1024 * (1024 * 1024))) := by norm_num
            rw [hc]
            simp only [format_size, formatUnits, formatSizeAux, if_neg h0, if_neg hd1, if_neg hd2,
              if_neg hd3, if_pos hd4]
            rw [show q / 1024 / 1024 / 1024 / 1024 = q / 1024 ^ 4 by
              rw [div_div, div_div, div_div]; norm_num]
            rfl
          · have hd4 : ¬ q / 1024 / 1024 / 1024 / 1024 < 1024 := by
              rw [div_div, div_div, div_div,
                div_lt_iff₀ (by norm_num : (0 : ℚ) < 1024 * (1024 * (1024 * 1024)))]
              intro hcon
              exact h4 (by calc q < 1024 * (1024 * (1024 * (1024 * 1024))) := hcon
                _ = 1024 ^ 5 := by norm_num)
            have hc : chooseUnit q = 5 := by simp [chooseUnit, h0, h1, h2, h3, h4]
            rw [hc]
            simp only [format_size, formatUnits, formatSizeAux, if_neg h0, if_neg hd1, if_neg hd2,
              if_neg hd3, if_neg hd4]
            rw [show q / 1024 / 1024 / 1024 / 1024 / 1024 = q / 1024 ^ 5 by
              rw [div_div, div_div, div_div, div_div]; norm_num]
            rfl

theorem decode_format (b : ℚ) (hb : 0 ≤ b) :
    decodeSize (format_size b) = some (decodedFormat b) := by
  rw [format_size_eq]
  unfold decodedFormat
  exact decodeSize_render _ (by positivity) _ (chooseUnit_le b)

theorem decodedFormat_mono (b1 b2 : ℕ) (h : b1 < b2) :
    decodedFormat (b1 : ℚ) ≤ decodedFormat (b2 : ℚ) := by
  have hble : ((b1 : ℕ) : ℚ) ≤ ((b2 : ℕ) : ℚ) := by exact_mod_cast h.le
  have hk : chooseUnit (b1 : ℚ) ≤ chooseUnit (b2 : ℚ) := chooseUnit_mono _ _ hble
  rcases eq_or_lt_of_le hk with heq | hlt
  · unfold decodedFormat
    rw [← heq]
    have h1 : (b1 : ℚ) / 1024 ^ chooseUnit (b1 : ℚ) * 100 ≤
        (b2 : ℚ) / 1024 ^ chooseUnit (b1 : ℚ) * 100 := by
      gcongr
    have h2 : ((rhe ((b1 : ℚ) / 1024 ^ chooseUnit (b1 : ℚ) * 100) : ℤ) : ℚ) ≤
        ((rhe ((b2 : ℚ) / 1024 ^ chooseUnit (b1 : ℚ) * 100) : ℤ) : ℚ) := by
      exact_mod_cast rhe_mono _ _ h1
    gcongr
  · unfold decodedFormat
    have hk15 : chooseUnit (b1 : ℚ) < 5 := lt_of_lt_of_le hlt (chooseUnit_le _)
    have hub : (b1 : ℚ) / 1024 ^ chooseUnit (b1 : ℚ) < 1024 := chooseUnit_lt _ hk15
    have hrhe1 : rhe ((b1 : ℚ) / 1024 ^ chooseUnit (b1 : ℚ) * 100) ≤ 102400 := by
      have hf : ⌊(b1 : ℚ) / 1024 ^ chooseUnit (b1 : ℚ) * 100⌋ < 102400 := by
        rw [Int.floor_lt]
        push_cast
        nlinarith [hub]
      have := rhe_le_floor_add_one ((b1 : ℚ) / 1024 ^ chooseUnit (b1 : ℚ) * 100)
      omega
    have hlb : (1024 : ℚ) ^ chooseUnit (b2 : ℚ) ≤ (b2 : ℚ) := by
      have hm := chooseUnit_min (b2 : ℚ) (chooseUnit (b2 : ℚ) - 1) (by omega)
      have he : (chooseUnit (b2 : ℚ) - 1) + 1 = chooseUnit (b2 : ℚ) := by omega
      rwa [he] at hm
    have hx2 : (1 : ℚ) ≤ (b2 : ℚ) / 1024 ^ chooseUnit (b2 : ℚ) := by
      rw [le_div_iff₀ (pow_pos (by norm_num) _)]
      simpa using hlb
    have hrhe2 : (100 : ℤ) ≤ rhe ((b2 : ℚ) / 1024 ^ chooseUnit (b2 : ℚ) * 100) := by
      have hf : (100 : ℤ) ≤ ⌊(b2 : ℚ) / 1024 ^ chooseUnit (b2 : ℚ) * 100⌋ := by
        rw [Int.le_floor]
        push_cast
        nlinarith [hx2]
      exact le_trans hf (rhe_floor_le _)
    calc (rhe ((b1 : ℚ) / 1024 ^ chooseUnit (b1 : ℚ) * 100) : ℚ) / 100 * 1024 ^ chooseUnit (b1 : ℚ)
        ≤ (102400 : ℚ) / 100 * 1024 ^ chooseUnit (b1 : ℚ) := by
          gcongr
          exact_mod_cast hrhe1
      _ = 1024 ^ (chooseUnit (b1 : ℚ) + 1) := by rw [pow_succ']; norm_num
      _ ≤ 1024 ^ chooseUnit (b2 : ℚ) := pow_le_pow_right₀ (by norm_num) (by omega)
      _ = (100 : ℚ) / 100 * 1024 ^ chooseUnit (b2 : ℚ) := by norm_num
      _ ≤ (rhe ((b2 : ℚ) / 1024 ^ chooseUnit (b2 : ℚ) * 100) : ℚ) / 100 *
            1024 ^ chooseUnit (b2 : ℚ) := by
          gcongr
          exact_mod_cast hrhe2

/-- C8: formatting is monotonic. For all byte counts b1 < b2, decoding the
formatted strings back to byte values through the units' binary multipliers
never yields a value for b1 strictly greater than the value for b2. -/
theorem format_size_monotone (b1 b2 : ℕ) (h : b1 < b2) :
    ∃ q1 q2 : ℚ, decodeSize (format_size (b1 : ℚ)) = some q1 ∧
      decodeSize (format_size (b2 : ℚ)) = some q2 ∧ q1 ≤ q2 :=
  ⟨decodedFormat (b1 : ℚ), decodedFormat (b2 : ℚ),
    decode_format _ (by positivity), decode_format _ (by positivity),
    decodedFormat_mono b1 b2 h⟩

theorem format_size_monotone_witness :
    1000 < 2000000 ∧ ∃ q1 q2 : ℚ, decodeSize (format_size ((1000 : ℕ) : ℚ)) = some q1 ∧
      decodeSize (format_size ((2000000 : ℕ) : ℚ)) = some q2 ∧ q1 ≤ q2 :=
  ⟨by norm_num, format_size_monotone 1000 2000000 (by norm_num)⟩

/-- C2 amended: for every non-negative byte count, format_size selects its
unit by repeatedly dividing by 1024 through the sequence B, KiB, MiB, GiB,
TiB, stopping at the first unit where the remaining value is strictly less
than 1024, and falls back to PiB (not EiB) when no earlier unit qualifies. -/
theorem format_size_unit_ladder (q : ℚ) (hq : 0 ≤ q) :
    ∃ k : ℕ, k ≤ 5 ∧
      format_size q = String.mk (formatTwoDecL (q / 1024 ^ k) ++ ' ' :: unitName k) ∧
      (∀ j : ℕ, j < k → 1024 ≤ q / 1024 ^ j) ∧
      (k < 5 → q / 1024 ^ k < 1024) :=
  ⟨chooseUnit q, chooseUnit_le q, format_size_eq q,
    fun j hj => le_div_pow_1024 q j (chooseUnit_min q j hj), chooseUnit_lt q⟩

theorem format_size_unit_ladder_witness :
    (0 : ℚ) ≤ 2048 ∧ ∃ k : ℕ, k ≤ 5 ∧
      format_size 2048 = String.mk (formatTwoDecL ((2048 : ℚ) / 1024 ^ k) ++ ' ' :: unitName k) ∧
      (∀ j : ℕ, j < k → 1024 ≤ (2048 : ℚ) / 1024 ^ j) ∧
      (k < 5 → (2048 : ℚ) / 1024 ^ k < 1024) :=
  ⟨by norm_num, format_size_unit_ladder 2048 (by norm_num)⟩

theorem formatTwoDecL_concrete (q : ℚ) (n : ℤ) (hq : 0 ≤ q) (hr : rhe (q * 100) = n) :
    formatTwoDecL q = natToStr (n.natAbs / 100) ++ '.' ::
      [digitChar (n.natAbs % 100 / 10), digitChar (n.natAbs % 100 % 10)] := by
  rw [formatTwoDecL_nonneg q hq, hr]

theorem format_size_pow6 : format_size ((1024 : ℚ) ^ 6) = "1024.00 PiB" := by
  rw [format_size_eq]
  have hc : chooseUnit ((1024 : ℚ) ^ 6) = 5 := by unfold chooseUnit; norm_num
  rw [hc]
  have hv : ((1024 : ℚ) ^ 6) / 1024 ^ 5 = 1024 := by norm_num
  rw [hv]
  have hr : rhe ((1024 : ℚ) * 100) = 102400 := by
    have he : (1024 : ℚ) * 100 = ((102400 : ℤ) : ℚ) := by norm_num
    rw [he, rhe_intCast]
  rw [formatTwoDecL_concrete 1024 102400 (by norm_num) hr]
  rfl

theorem formatSizeSpec_pow6 : formatSizeSpec ((1024 : ℚ) ^ 6) = "1.00 EiB" := by
  unfold formatSizeSpec
  have hc : chooseUnitSpec ((1024 : ℚ) ^ 6) = 6 := by unfold chooseUnitSpec; norm_num
  rw [hc]
  have hv : ((1024 : ℚ) ^ 6) / 1024 ^ 6 = 1 := by norm_num
  rw [hv]
  have hr : rhe ((1 : ℚ) * 100) = 100 := by
    have he : (1 : ℚ) * 100 = ((100 : ℤ) : ℚ) := by norm_num
    rw [he, rhe_intCast]
  rw [formatTwoDecL_concrete 1 100 (by norm_num) hr]
  rfl

/-- C2 counterexample: at 1024^6 bytes the code renders "1024.00 PiB" while
the ladder the claim describes (through EiB) would render "1.00 EiB". -/
theorem format_size_no_eib :
    format_size ((1024 : ℚ) ^ 6) = "1024.00 PiB" ∧
    formatSizeSpec ((1024 : ℚ) ^ 6) = "1.00 EiB" ∧
    format_size ((1024 : ℚ) ^ 6) ≠ formatSizeSpec ((1024 : ℚ) ^ 6) := by
  refine ⟨format_size_pow6, formatSizeSpec_pow6, ?_⟩
  rw [format_size_pow6, formatSizeSpec_pow6]
  decide

/-- C1 counterexample: format_size returns a formatted string on -1 instead of
signaling an error (the source has no error path at all). -/
theorem format_size_neg_one : format_size (-1) = "-1.00 B" := by
  have hneg : (-1 : ℚ) < 1024 := by norm_num
  simp only [format_size, formatUnits, formatSizeAux, if_pos hneg]
  have hr : rhe ((-1 : ℚ) * 100) = -100 := by
    have he : (-1 : ℚ) * 100 = ((-100 : ℤ) : ℚ) := by norm_num
    rw [he, rhe_intCast]
  simp only [formatTwoDecL, hr, if_pos (show (-1 : ℚ) < 0 by norm_num)]
  rfl

/-- C1 amended: every negative byte count is formatted with unit B, no error. -/
theorem format_size_negative (q : ℚ) (h : q < 0) :
    format_size q = String.mk (formatTwoDecL q ++ ' ' :: ['B']) := by
  simp only [format_size, formatUnits, formatSizeAux,
    if_pos (lt_trans h (by norm_num : (0 : ℚ) < 1024))]

theorem format_size_negative_witness :
    (-1 : ℚ) < 0 ∧ format_size (-1) = String.mk (formatTwoDecL (-1) ++ ' ' :: ['B']) :=
  ⟨by norm_num, format_size_negative (-1) (by norm_num)⟩

theorem format_size_1024 : format_size 1024 = "1.00 KiB" := by
  rw [format_size_eq]
  have hc : chooseUnit (1024 : ℚ) = 1 := by unfold chooseUnit; norm_num
  rw [hc]
  have hv : (1024 : ℚ) / 1024 ^ 1 = 1 := by norm_num
  rw [hv]
  have hr : rhe ((1 : ℚ) * 100) = 100 := by
    have he : (1 : ℚ) * 100 = ((100 : ℤ) : ℚ) := by norm_num
    rw [he, rhe_intCast]
  rw [formatTwoDecL_concrete 1 100 (by norm_num) hr]
  rfl

theorem format_size_zero : format_size 0 = "0.00 B" := by
  rw [format_size_eq]
  have hc : chooseUnit (0 : ℚ) = 0 := by unfold chooseUnit; norm_num
  rw [hc]
  have hv : (0 : ℚ) / 1024 ^ 0 = 0 := by norm_num
  rw [hv]
  have hr : rhe ((0 : ℚ) * 100) = 0 := by
    have he : (0 : ℚ) * 100 = ((0 : ℤ) : ℚ) := by norm_num
    rw [he, rhe_intCast]
  rw [formatTwoDecL_concrete 0 0 (by norm_num) hr]
  rfl

theorem format_size_5000000 : format_size 5000000 = "4.77 MiB" := by
  rw [format_size_eq]
  have hc : chooseUnit (5000000 : ℚ) = 2 := by unfold chooseUnit; norm_num
  rw [hc]
  have hr : rhe ((5000000 : ℚ) / 1024 ^ 2 * 100) = 477 := by
    have h := rhe_eq_of_gt_half ((5000000 : ℚ) / 1024 ^ 2 * 100) 476
      (by push_cast; norm_num) (by push_cast; norm_num)
    omega
  rw [formatTwoDecL_concrete _ 477 (by positivity) hr]
  rfl

theorem parse_size_1024KB : parse_size ("1024KB") = some 1048576 := by
  have h1 : upperChars (stripChars ("1024KB".data)) = "1024KB".data := rfl
  rw [parse_size, h1]
  have he : endsWithL ("1024KB".data) ['K', 'B'] = true := rfl
  have h3 : parseSigned (stripChars (dropSuffixL ("1024KB".data) ['K', 'B'])) =
      some ((1024 : ℕ) : ℚ) := rfl
  simp only [sizeUnits, parseSizeAux, he, if_true, h3]
  norm_num

/-- C7: parser and formatter agree on the binary 1024-based unit basis:
parseSize("1024KB") = 1024*1024, formatSize(1024) = "1.00 KiB",
formatSize(0) = "0.00 B", formatSize(5000000) = "4.77 MiB". -/
theorem parse_format_consistency :
    parse_size ("1024KB") = some (1024 * 1024) ∧ format_size 1024 = "1.00 KiB" ∧
    format_size 0 = "0.00 B" ∧ format_size 5000000 = "4.77 MiB" := by
  refine ⟨?_, format_size_1024, format_size_zero, format_size_5000000⟩
  rw [parse_size_1024KB]
  norm_num
